import Mathlib

/-!
# Verification of the Glyph chunked QR transport protocol

Shallow embedding of the encode-side protocol core of the `glyph` repository
(`src/qr_subway_lab/generate_web_lab.py`, `generate_qr_wall.py`,
`subway_lab_v2.py`) together with proofs of the specification's claims.

Python strings are modelled as lists of Unicode scalar values (`List Char`),
byte strings as lists of naturals below 256 (`Bytes`).  The external zlib
library (raw deflate) and the external QR rasterizer are modelled as
parameters (`ZlibLib`, `QRLib`); the concrete deflate parameters that the
code passes (level 9, window bits -15) are embedded explicitly.  The
receiver-side decode path does not exist in the repository's scripts, so it
is modelled from the specification where needed (see `decodeWebBundle`).
-/

namespace Glyph

/-- Byte strings: each element is a byte value (kept below 256 where it matters). -/
abbrev Bytes := List Nat

/-- Decimal digit characters, used by the compact JSON number serializer. -/
def decDigitChar (d : Nat) : Char := "0123456789".toList.getD d '0'

/-- Lowercase hexadecimal digit characters, as CPython's json writes them. -/
def hexDigitChar (d : Nat) : Char := "0123456789abcdef".toList.getD d '0'

/-- The four hex digits of a value below 0x10000, most significant first. -/
def hex4 (n : Nat) : List Char :=
  [hexDigitChar (n / 4096 % 16), hexDigitChar (n / 256 % 16),
   hexDigitChar (n / 16 % 16), hexDigitChar (n % 16)]

/-- One character of a JSON string, escaped the way CPython's
`json.dumps` (default `ensure_ascii=True`) escapes it: the seven
shortcut escapes, printable ASCII kept literally, everything else as
`\uXXXX` (with a surrogate pair above 0xFFFF). -/
def escapeChar (c : Char) : List Char :=
  if c = '"' then ['\\', '"']
  else if c = '\\' then ['\\', '\\']
  else if c = '\x08' then ['\\', 'b']
  else if c = '\x0c' then ['\\', 'f']
  else if c = '\n' then ['\\', 'n']
  else if c = '\r' then ['\\', 'r']
  else if c = '\t' then ['\\', 't']
  else if 32 ≤ c.toNat ∧ c.toNat ≤ 126 then [c]
  else if c.toNat < 65536 then '\\' :: 'u' :: hex4 c.toNat
  else '\\' :: 'u' :: hex4 (55296 + (c.toNat - 65536) / 1024) ++
       '\\' :: 'u' :: hex4 (56320 + (c.toNat - 65536) % 1024)

/-- A whole JSON string body, escaped character by character. -/
def escapeString (s : List Char) : List Char := (s.map escapeChar).flatten

/-- A JSON string literal: quote, escaped body, quote. -/
def jquote (s : List Char) : List Char := '"' :: (escapeString s ++ ['"'])

/-- Decimal serialization of a natural number, as Python prints a
nonnegative integer. -/
def natDigits (n : Nat) : List Char :=
  if n = 0 then ['0'] else (Nat.digits 10 n).reverse.map decDigitChar

/-- UTF-8 encoding of one Unicode scalar value (`str.encode('utf-8')`,
one character). -/
def utf8Char (c : Char) : Bytes :=
  let n := c.toNat
  if n < 128 then [n]
  else if n < 2048 then [192 + n / 64, 128 + n % 64]
  else if n < 65536 then [224 + n / 4096, 128 + n / 64 % 64, 128 + n % 64]
  else [240 + n / 262144, 128 + n / 4096 % 64, 128 + n / 64 % 64, 128 + n % 64]

/-- UTF-8 encoding of a string (`str.encode('utf-8')`). -/
def utf8 (s : List Char) : Bytes := (s.map utf8Char).flatten

/-- The standard base64 alphabet. -/
def b64Chars : List Char :=
  "ABCDEFGHIJKLMNOPQRSTUVWXYZabcdefghijklmnopqrstuvwxyz0123456789+/".toList

/-- The base64 digit for a 6-bit value. -/
def b64Digit (n : Nat) : Char := b64Chars.getD n 'A'

/-- Standard padded base64 of a byte string (`base64.b64encode`),
three input bytes per four output characters. -/
def b64Encode : Bytes → List Char
  | [] => []
  | [a] => [b64Digit (a / 4), b64Digit (a % 4 * 16), '=', '=']
  | [a, b] => [b64Digit (a / 4), b64Digit (a % 4 * 16 + b / 16), b64Digit (b % 16 * 4), '=']
  | a :: b :: c :: rest =>
      b64Digit (a / 4) :: b64Digit (a % 4 * 16 + b / 16) ::
      b64Digit (b % 16 * 4 + c / 64) :: b64Digit (c % 64) :: b64Encode rest

/-- Value of one base64 digit character. -/
def b64DigitVal (c : Char) : Option Nat :=
  if 65 ≤ c.toNat ∧ c.toNat ≤ 90 then some (c.toNat - 65)
  else if 97 ≤ c.toNat ∧ c.toNat ≤ 122 then some (c.toNat - 71)
  else if 48 ≤ c.toNat ∧ c.toNat ≤ 57 then some (c.toNat + 4)
  else if c = '+' then some 62
  else if c = '/' then some 63
  else none

/-- Standard base64 decoding of a padded base64 text (`base64.b64decode`
on well-formed input; anything malformed is rejected). -/
def b64Decode : List Char → Option Bytes
  | [] => some []
  | c1 :: c2 :: c3 :: c4 :: rest =>
      if c3 = '=' then
        if c4 = '=' ∧ rest = [] then
          match b64DigitVal c1, b64DigitVal c2 with
          | some a, some b => some [a * 4 + b / 16]
          | _, _ => none
        else none
      else if c4 = '=' then
        if rest = [] then
          match b64DigitVal c1, b64DigitVal c2, b64DigitVal c3 with
          | some a, some b, some c => some [a * 4 + b / 16, b % 16 * 16 + c / 4]
          | _, _, _ => none
        else none
      else
        match b64DigitVal c1, b64DigitVal c2, b64DigitVal c3, b64DigitVal c4,
              b64Decode rest with
        | some a, some b, some c, some d, some tail =>
            some ((a * 4 + b / 16) :: (b % 16 * 16 + c / 4) :: (c % 4 * 64 + d) :: tail)
        | _, _, _, _, _ => none
  | _ => none

/-- The external zlib primitives the scripts call: `deflateRaw lvl` stands
for the `zlib.compressobj(lvl, zlib.DEFLATED, -15)` compress-and-flush
pipeline, `inflateRaw` for `zlib.decompress(data, -15)`. -/
structure ZlibLib where
  deflateRaw : Nat → Bytes → Bytes
  inflateRaw : Bytes → Option Bytes

/-- zlib round-trips every byte string (the guarantee the scripts rely on). -/
def ZlibLib.Lossless (z : ZlibLib) : Prop :=
  ∀ lvl bs, z.inflateRaw (z.deflateRaw lvl bs) = some bs

/-- zlib output is again a byte string when the input is one. -/
def ZlibLib.BytePreserving (z : ZlibLib) : Prop :=
  ∀ lvl bs, (∀ x ∈ bs, x < 256) → ∀ x ∈ z.deflateRaw lvl bs, x < 256

/-- `gzip_compress` from `generate_web_lab.py` (and `raw_deflate` from
`generate_qr_wall.py`): raw header-less deflate at level 9, window -15. -/
def gzip_compress (z : ZlibLib) (data : Bytes) : Bytes := z.deflateRaw 9 data

/-- `gzip_decompress` from `generate_web_lab.py`: raw inflate, window -15. -/
def gzip_decompress (z : ZlibLib) (data : Bytes) : Option Bytes := z.inflateRaw data

/-- The window-bits argument both zlib calls pass (raw, header-less). -/
def zlib_window_bits : Int := -15

/-- The compression level `gzip_compress` passes (zlib's maximum). -/
def zlib_level : Nat := 9

/-- The record being transmitted (the dict built in `encode_web_bundle`).
The timestamp is modelled as a natural number of epoch units; the scripts
stamp it with `datetime.now().timestamp()`, which is an input here. -/
structure GlyphWebBundle where
  title : List Char
  html : List Char
  templateType : Option (List Char)
  createdAt : Nat
deriving DecidableEq, Repr

/-- The `templateType` field value: a JSON string or `null`. -/
def serializeTT : Option (List Char) → List Char
  | none => ['n', 'u', 'l', 'l']
  | some t => jquote t

/-- `json.dumps(bundle, separators=(',', ':'))`: the compact JSON text of
the bundle, keys in insertion order title, html, templateType, createdAt. -/
def serializeBundle (b : GlyphWebBundle) : List Char :=
  "\x7b\"title\":".toList ++ jquote b.title ++
  ",\"html\":".toList ++ jquote b.html ++
  ",\"templateType\":".toList ++ serializeTT b.templateType ++
  ",\"createdAt\":".toList ++ natDigits b.createdAt ++ ['\x7d']

/-- `encode_web_bundle` from `generate_web_lab.py` / `generate_qr_wall.py`:
JSON, raw deflate, base64, `GLYW:` tag; returns the payload together with
the JSON byte count and the compressed byte count. -/
def encode_web_bundle (z : ZlibLib) (title html : List Char)
    (template_type : Option (List Char)) (now : Nat) : List Char × Nat × Nat :=
  let bundle : GlyphWebBundle := ⟨title, html, template_type, now⟩
  let json_bytes := utf8 (serializeBundle bundle)
  let compressed := gzip_compress z json_bytes
  let b64 := b64Encode compressed
  ("GLYW:".toList ++ b64, json_bytes.length, compressed.length)

/-- `MAX_CHUNK_BYTES` from both scripts. -/
def MAX_CHUNK_BYTES : Nat := 800

/-- The slicing loop, with a fuel argument for structural termination:
every step consumes at least one element, so `length` fuel is enough. -/
def chunksByF : Nat → Nat → List α → List (List α)
  | _, _, [] => []
  | 0, _, _ :: _ => []
  | fuel + 1, k, a :: s => (a :: s.take (k - 1)) :: chunksByF fuel k (s.drop (k - 1))

/-- The slicing loop `[s[i:i+k] for i in range(0, len(s), k)]`. -/
def chunksBy (k : Nat) (s : List α) : List (List α) := chunksByF s.length k s

/-- One chunk record (the dict built per slice in `chunk_payload`). -/
structure GlyphChunk where
  sessionId : List Char
  index : Nat
  total : Nat
  data : List Char
deriving DecidableEq, Repr

/-- `json.dumps(chunk, separators=(',', ':'))`: compact JSON of a chunk,
keys in insertion order sessionId, index, total, data. -/
def serializeChunk (ch : GlyphChunk) : List Char :=
  "\x7b\"sessionId\":".toList ++ jquote ch.sessionId ++
  ",\"index\":".toList ++ natDigits ch.index ++
  ",\"total\":".toList ++ natDigits ch.total ++
  ",\"data\":".toList ++ jquote ch.data ++ ['\x7d']

/-- The chunk records `chunk_payload` builds: base64 the payload's UTF-8
bytes, slice into `MAX_CHUNK_BYTES`-character pieces, wrap slice `i` of
`total` with the session id. -/
def chunkRecords (payload_string : List Char) (session_id : List Char) :
    List GlyphChunk :=
  let payload_b64 := b64Encode (utf8 payload_string)
  let slices := chunksBy MAX_CHUNK_BYTES payload_b64
  slices.enum.map (fun p => ⟨session_id, p.1, slices.length, p.2⟩)

/-- One emitted frame string: `GLYC:` tag plus base64 of the chunk JSON. -/
def chunkFrame (ch : GlyphChunk) : List Char :=
  "GLYC:".toList ++ b64Encode (utf8 (serializeChunk ch))

/-- `chunk_payload` from `generate_web_lab.py` / `generate_qr_wall.py`:
the ordered list of `GLYC:` frame strings for a tagged payload. -/
def chunk_payload (payload_string : List Char) (session_id : List Char) :
    List (List Char) :=
  (chunkRecords payload_string session_id).map chunkFrame

/-- Matches one literal piece of text at the head of the input. -/
def dropLit : List Char → List Char → Option (List Char)
  | [], s => some s
  | _ :: _, [] => none
  | p :: ps, c :: cs => if c = p then dropLit ps cs else none

/-- Value of a hexadecimal digit character (either case). -/
def hexVal (c : Char) : Option Nat :=
  if 48 ≤ c.toNat ∧ c.toNat ≤ 57 then some (c.toNat - 48)
  else if 97 ≤ c.toNat ∧ c.toNat ≤ 102 then some (c.toNat - 87)
  else if 65 ≤ c.toNat ∧ c.toNat ≤ 70 then some (c.toNat - 55)
  else none

/-- Value of a four-hex-digit group. -/
def hexVal4 (a b c d : Char) : Option Nat :=
  match hexVal a, hexVal b, hexVal c, hexVal d with
  | some x, some y, some z, some w => some (4096 * x + 256 * y + 16 * z + w)
  | _, _, _, _ => none

/-- Modelled from the spec: reads one escape sequence (the input starts
just after a backslash), undoing the escapes `escapeChar` uses, surrogate
pairs included; returns the decoded character and the remaining input. -/
def readEsc : List Char → Option (Char × List Char)
  | [] => none
  | e :: rest2 =>
    if e = '"' then some ('"', rest2)
    else if e = '\\' then some ('\\', rest2)
    else if e = 'b' then some ('\x08', rest2)
    else if e = 'f' then some ('\x0c', rest2)
    else if e = 'n' then some ('\n', rest2)
    else if e = 'r' then some ('\r', rest2)
    else if e = 't' then some ('\t', rest2)
    else if e = 'u' then
      match rest2 with
      | h1 :: h2 :: h3 :: h4 :: rest3 =>
        match hexVal4 h1 h2 h3 h4 with
        | none => none
        | some n =>
          if n < 55296 ∨ 57344 ≤ n then some (Char.ofNat n, rest3)
          else if n < 56320 then
            match rest3 with
            | b1 :: u2 :: g1 :: g2 :: g3 :: g4 :: rest4 =>
              if b1 = '\\' ∧ u2 = 'u' then
                match hexVal4 g1 g2 g3 g4 with
                | none => none
                | some m =>
                  if 56320 ≤ m ∧ m < 57344 then
                    some (Char.ofNat (65536 + (n - 55296) * 1024 + (m - 56320)), rest4)
                  else none
              else none
            | _ => none
          else none
      | _ => none
    else none

/-- Modelled from the spec: the receiver-side JSON string reader (the
repository only implements the encode side).  Reads the body of a JSON
string up to its closing quote; the decoded body and the rest of the
input after the closing quote are returned.  The fuel argument is a
structural-termination device only: every step consumes at least one
input character, so `length + 1` fuel never runs out. -/
def parseJStrF : Nat → List Char → Option (List Char × List Char)
  | 0, _ => none
  | _ + 1, [] => none
  | fuel + 1, c :: rest =>
    if c = '"' then some ([], rest)
    else if c = '\\' then
      match readEsc rest with
      | none => none
      | some (ch, rest2) => (parseJStrF fuel rest2).map (fun p => (ch :: p.1, p.2))
    else (parseJStrF fuel rest).map (fun p => (c :: p.1, p.2))

/-- Modelled from the spec: the JSON string reader at adequate fuel. -/
def parseJStr (s : List Char) : Option (List Char × List Char) :=
  parseJStrF (s.length + 1) s

/-- Modelled from the spec: reads a quoted JSON string literal. -/
def parseQuoted : List Char → Option (List Char × List Char)
  | '"' :: rest => parseJStr rest
  | _ => none

/-- Is this an ASCII decimal digit? -/
def isDigitChar (c : Char) : Bool := decide (48 ≤ c.toNat ∧ c.toNat ≤ 57)

/-- Modelled from the spec: reads a nonnegative JSON integer greedily. -/
def parseNat (s : List Char) : Option (Nat × List Char) :=
  let ds := s.takeWhile isDigitChar
  if ds = [] then none
  else some (ds.foldl (fun a c => a * 10 + (c.toNat - 48)) 0, s.dropWhile isDigitChar)

/-- Modelled from the spec: reads a `templateType` value (string or null). -/
def parseTT : List Char → Option (Option (List Char) × List Char)
  | 'n' :: 'u' :: 'l' :: 'l' :: s => some (none, s)
  | '"' :: s => (parseJStr s).map (fun p => (some p.1, p.2))
  | _ => none

/-- Modelled from the spec (§4.1, §6): the receiver-side parse of the
canonical whitespace-free key-ordered bundle JSON, absent from the
repository's scripts. -/
def parseBundle (s : List Char) : Option GlyphWebBundle := do
  let s1 ← dropLit "\x7b\"title\":".toList s
  let (title, s2) ← parseQuoted s1
  let s3 ← dropLit ",\"html\":".toList s2
  let (html, s4) ← parseQuoted s3
  let s5 ← dropLit ",\"templateType\":".toList s4
  let (tt, s6) ← parseTT s5
  let s7 ← dropLit ",\"createdAt\":".toList s6
  let (ca, s8) ← parseNat s7
  let s9 ← dropLit ['\x7d'] s8
  if s9 = [] then some ⟨title, html, tt, ca⟩ else none

/-- Modelled from the spec (§4.1, §6): the receiver-side parse of the
canonical chunk JSON. -/
def parseChunk (s : List Char) : Option GlyphChunk := do
  let s1 ← dropLit "\x7b\"sessionId\":".toList s
  let (sid, s2) ← parseQuoted s1
  let s3 ← dropLit ",\"index\":".toList s2
  let (idx, s4) ← parseNat s3
  let s5 ← dropLit ",\"total\":".toList s4
  let (tot, s6) ← parseNat s5
  let s7 ← dropLit ",\"data\":".toList s6
  let (dat, s8) ← parseQuoted s7
  let s9 ← dropLit ['\x7d'] s8
  if s9 = [] then some ⟨sid, idx, tot, dat⟩ else none

/-- Decodes a byte string that is pure ASCII (the canonical JSON text is
ASCII by construction since `escapeChar` keeps `ensure_ascii`). -/
def asciiDecode (bs : Bytes) : Option (List Char) :=
  if bs.all (fun b => decide (b < 128)) then some (bs.map Char.ofNat) else none

/-- Modelled from the spec (§4.1): the receiver-side bundle decode, absent
from the repository's scripts — verify the `GLYW:` tag, base64-decode,
raw-inflate, parse the compact JSON. -/
def decodeWebBundle (z : ZlibLib) (payload : List Char) : Option GlyphWebBundle := do
  let body ← dropLit "GLYW:".toList payload
  let compressed ← b64Decode body
  let jsonBytes ← gzip_decompress z compressed
  let text ← asciiDecode jsonBytes
  parseBundle text

/-- QR error-correction levels of the `qrcode` library's constants. -/
inductive ECLevel
  | L
  | M
  | Q
  | H
deriving DecidableEq, Repr

/-- Approximate recovery percentage of an error-correction level: the
robustness order L < M < Q < H. -/
def ECLevel.robustness : ECLevel → Nat
  | .L => 7
  | .M => 15
  | .Q => 25
  | .H => 30

/-- The error-correction tier from `build_test_cases` in `subway_lab_v2.py`:
`ERROR_CORRECT_L if byte_len > 500 else ERROR_CORRECT_M`. -/
def select_error_correction (byte_len : Nat) : ECLevel :=
  if 500 < byte_len then .L else .M

/-- The module-size tier from `build_test_cases` in `subway_lab_v2.py`:
`6 if byte_len > 1200 else 8 if byte_len > 500 else 10`. -/
def select_box_size (byte_len : Nat) : Nat :=
  if 1200 < byte_len then 6 else if 500 < byte_len then 8 else 10

/-- The external QR rasterizer (`qrcode.QRCode` + PIL): given the data,
error-correction level and module size it returns a PNG (base64) and the
fitted symbol version. -/
structure QRLib where
  render : List Char → ECLevel → Nat → List Char × Nat

/-- `qr_to_base64_png` from `subway_lab_v2.py`: rasterize and return the
PNG base64, the chosen QR version, and the exact UTF-8 byte length of the
encoded data. -/
def qr_to_base64_png (lib : QRLib) (data : List Char) (error_correction : ECLevel)
    (box_size : Nat) : List Char × Nat × Nat :=
  let r := lib.render data error_correction box_size
  (r.1, r.2, (utf8 data).length)

/-- The per-case QR generation step of `build_test_cases` in
`subway_lab_v2.py`: measure the UTF-8 byte length, pick the tiers, render. -/
def render_case (lib : QRLib) (raw_data : List Char) : List Char × Nat × Nat :=
  let byte_len := (utf8 raw_data).length
  let ec := select_error_correction byte_len
  let bs := select_box_size byte_len
  qr_to_base64_png lib raw_data ec bs

end Glyph

namespace Glyph

/-! ## Base64 correctness -/

theorem b64DigitVal_b64Digit : ∀ n < 64, b64DigitVal (b64Digit n) = some n := by decide

theorem b64Digit_ne_pad : ∀ n < 64, b64Digit n ≠ '=' := by decide

theorem b64Digit_ascii : ∀ n < 64, (b64Digit n).toNat < 128 := by decide

theorem b64Decode_b64Encode :
    ∀ (bs : Bytes), (∀ x ∈ bs, x < 256) → b64Decode (b64Encode bs) = some bs
  | [], _ => rfl
  | [a], h => by
    have ha : a < 256 := h a (by simp)
    simp only [b64Encode]
    rw [b64Decode]
    rw [if_pos rfl, if_pos (by simp : ('=' : Char) = '=' ∧ ([] : List Char) = [])]
    rw [b64DigitVal_b64Digit (a / 4) (by omega),
        b64DigitVal_b64Digit (a % 4 * 16) (by omega)]
    simp only [Option.some.injEq, List.cons.injEq, and_true]
    omega
  | [a, b], h => by
    have ha : a < 256 := h a (by simp)
    have hb : b < 256 := h b (by simp)
    simp only [b64Encode]
    rw [b64Decode]
    rw [if_neg (b64Digit_ne_pad (b % 16 * 4) (by omega)), if_pos rfl, if_pos rfl,
        b64DigitVal_b64Digit (a / 4) (by omega),
        b64DigitVal_b64Digit (a % 4 * 16 + b / 16) (by omega),
        b64DigitVal_b64Digit (b % 16 * 4) (by omega)]
    simp only [Option.some.injEq, List.cons.injEq, and_true]
    omega
  | a :: b :: c :: rest, h => by
    have ha : a < 256 := h a (by simp)
    have hb : b < 256 := h b (by simp)
    have hc : c < 256 := h c (by simp)
    have ih := b64Decode_b64Encode rest (fun x hx => h x (by simp [hx]))
    simp only [b64Encode]
    rw [b64Decode]
    rw [if_neg (b64Digit_ne_pad (b % 16 * 4 + c / 64) (by omega)),
        if_neg (b64Digit_ne_pad (c % 64) (by omega)),
        b64DigitVal_b64Digit (a / 4) (by omega),
        b64DigitVal_b64Digit (a % 4 * 16 + b / 16) (by omega),
        b64DigitVal_b64Digit (b % 16 * 4 + c / 64) (by omega),
        b64DigitVal_b64Digit (c % 64) (by omega), ih]
    simp only [Option.some.injEq, List.cons.injEq]
    refine ⟨by omega, by omega, by omega, trivial⟩

/-! ## Literal matching -/

theorem dropLit_append : ∀ (p s : List Char), dropLit p (p ++ s) = some s
  | [], s => rfl
  | c :: p, s => by
    simp only [List.cons_append, dropLit, if_pos rfl]
    exact dropLit_append p s

/-! ## Character facts -/

theorem char_toNat_valid (c : Char) :
    c.toNat < 55296 ∨ (57343 < c.toNat ∧ c.toNat < 1114112) := c.valid


/-! ## JSON string escaping round-trip -/

theorem hexVal_hexDigitChar : ∀ d < 16, hexVal (hexDigitChar d) = some d := by decide

theorem hexVal4_hex4 (n : Nat) (h : n < 65536) :
    hexVal4 (hexDigitChar (n / 4096 % 16)) (hexDigitChar (n / 256 % 16))
      (hexDigitChar (n / 16 % 16)) (hexDigitChar (n % 16)) = some n := by
  unfold hexVal4
  rw [hexVal_hexDigitChar (n / 4096 % 16) (by omega),
      hexVal_hexDigitChar (n / 256 % 16) (by omega),
      hexVal_hexDigitChar (n / 16 % 16) (by omega),
      hexVal_hexDigitChar (n % 16) (by omega)]
  simp only [Option.some.injEq]
  omega

theorem escapeString_nil : escapeString [] = [] := rfl

theorem escapeString_cons (c : Char) (s : List Char) :
    escapeString (c :: s) = escapeChar c ++ escapeString s := by
  simp [escapeString]

theorem escapeChar_length_pos (c : Char) : 1 ≤ (escapeChar c).length := by
  unfold escapeChar
  split_ifs <;> simp [hex4]

theorem length_le_escapeString (s : List Char) : s.length ≤ (escapeString s).length := by
  induction s with
  | nil => simp [escapeString]
  | cons c t ih =>
    rw [escapeString_cons]
    have := escapeChar_length_pos c
    simp only [List.length_append, List.length_cons]
    omega

theorem readEsc_quote (r : List Char) : readEsc ('"' :: r) = some ('"', r) := rfl

theorem readEsc_backslash (r : List Char) : readEsc ('\\' :: r) = some ('\\', r) := rfl

theorem readEsc_b (r : List Char) : readEsc ('b' :: r) = some ('\x08', r) := rfl

theorem readEsc_f (r : List Char) : readEsc ('f' :: r) = some ('\x0c', r) := rfl

theorem readEsc_n (r : List Char) : readEsc ('n' :: r) = some ('\n', r) := rfl

theorem readEsc_r (r : List Char) : readEsc ('r' :: r) = some ('\r', r) := rfl

theorem readEsc_t (r : List Char) : readEsc ('t' :: r) = some ('\t', r) := rfl

theorem readEsc_u_bmp (h1 h2 h3 h4 : Char) (r : List Char) (n : Nat)
    (hh : hexVal4 h1 h2 h3 h4 = some n) (hn : n < 55296 ∨ 57344 ≤ n) :
    readEsc ('u' :: h1 :: h2 :: h3 :: h4 :: r) = some (Char.ofNat n, r) := by
  unfold readEsc
  simp only [reduceIte]
  rw [hh]
  simp only [if_pos hn]
  simp

theorem readEsc_u_pair (h1 h2 h3 h4 g1 g2 g3 g4 : Char) (r : List Char) (n m : Nat)
    (hh : hexVal4 h1 h2 h3 h4 = some n) (hn1 : 55296 ≤ n) (hn2 : n < 56320)
    (hg : hexVal4 g1 g2 g3 g4 = some m) (hm : 56320 ≤ m ∧ m < 57344) :
    readEsc ('u' :: h1 :: h2 :: h3 :: h4 :: '\\' :: 'u' :: g1 :: g2 :: g3 :: g4 :: r) =
      some (Char.ofNat (65536 + (n - 55296) * 1024 + (m - 56320)), r) := by
  unfold readEsc
  simp only [reduceIte]
  rw [hh]
  simp only [if_neg (show ¬(n < 55296 ∨ 57344 ≤ n) from by omega), if_pos hn2]
  rw [hg]
  simp only [if_pos hm]
  simp

theorem parseJStrF_quote (fuel : Nat) (r : List Char) :
    parseJStrF (fuel + 1) ('"' :: r) = some ([], r) := by
  rw [parseJStrF]
  simp

theorem parseJStrF_lit (fuel : Nat) (c : Char) (rest : List Char)
    (hq : ¬(c = '"')) (hb : ¬(c = '\\')) :
    parseJStrF (fuel + 1) (c :: rest) =
      (parseJStrF fuel rest).map (fun p => (c :: p.1, p.2)) := by
  rw [parseJStrF, if_neg hq, if_neg hb]

theorem parseJStrF_esc (fuel : Nat) (rest : List Char) (ch : Char) (rest2 : List Char)
    (he : readEsc rest = some (ch, rest2)) :
    parseJStrF (fuel + 1) ('\\' :: rest) =
      (parseJStrF fuel rest2).map (fun p => (ch :: p.1, p.2)) := by
  rw [parseJStrF]
  rw [he]
  simp

theorem parseJStrF_escapeString :
    ∀ (fuel : Nat) (s r : List Char), s.length < fuel →
      parseJStrF fuel (escapeString s ++ '"' :: r) = some (s, r)
  | fuel + 1, [], r, _ => by
    rw [escapeString_nil, List.nil_append]
    exact parseJStrF_quote fuel r
  | fuel + 1, c :: s, r, h => by
    have ih := parseJStrF_escapeString fuel s r (by
      simp only [List.length_cons] at h; omega)
    rw [escapeString_cons, List.append_assoc]
    by_cases h1 : c = '"'
    · subst h1
      rw [show escapeChar '"' = ['\\', '"'] from rfl]
      simp only [List.cons_append, List.nil_append]
      rw [parseJStrF_esc fuel _ _ _ (readEsc_quote _), ih]
      rfl
    by_cases h2 : c = '\\'
    · subst h2
      rw [show escapeChar '\\' = ['\\', '\\'] from rfl]
      simp only [List.cons_append, List.nil_append]
      rw [parseJStrF_esc fuel _ _ _ (readEsc_backslash _), ih]
      rfl
    by_cases h3 : c = '\x08'
    · subst h3
      rw [show escapeChar '\x08' = ['\\', 'b'] from rfl]
      simp only [List.cons_append, List.nil_append]
      rw [parseJStrF_esc fuel _ _ _ (readEsc_b _), ih]
      rfl
    by_cases h4 : c = '\x0c'
    · subst h4
      rw [show escapeChar '\x0c' = ['\\', 'f'] from rfl]
      simp only [List.cons_append, List.nil_append]
      rw [parseJStrF_esc fuel _ _ _ (readEsc_f _), ih]
      rfl
    by_cases h5 : c = '\n'
    · subst h5
      rw [show escapeChar '\n' = ['\\', 'n'] from rfl]
      simp only [List.cons_append, List.nil_append]
      rw [parseJStrF_esc fuel _ _ _ (readEsc_n _), ih]
      rfl
    by_cases h6 : c = '\r'
    · subst h6
      rw [show escapeChar '\r' = ['\\', 'r'] from rfl]
      simp only [List.cons_append, List.nil_append]
      rw [parseJStrF_esc fuel _ _ _ (readEsc_r _), ih]
      rfl
    by_cases h7 : c = '\t'
    · subst h7
      rw [show escapeChar '\t' = ['\\', 't'] from rfl]
      simp only [List.cons_append, List.nil_append]
      rw [parseJStrF_esc fuel _ _ _ (readEsc_t _), ih]
      rfl
    by_cases h8 : 32 ≤ c.toNat ∧ c.toNat ≤ 126
    · rw [show escapeChar c = [c] from by
        simp [escapeChar, h1, h2, h3, h4, h5, h6, h7, h8]]
      simp only [List.cons_append, List.nil_append]
      rw [parseJStrF_lit fuel c _ h1 h2, ih]
      rfl
    by_cases h9 : c.toNat < 65536
    · have hval := char_toNat_valid c
      rw [show escapeChar c = '\\' :: 'u' :: hex4 c.toNat from by
        simp [escapeChar, h1, h2, h3, h4, h5, h6, h7, h8, h9]]
      simp only [hex4, List.cons_append, List.nil_append]
      rw [parseJStrF_esc fuel _ _ _
        (readEsc_u_bmp _ _ _ _ _ c.toNat (hexVal4_hex4 c.toNat h9) (by omega))]
      rw [ih, Char.ofNat_toNat]
      rfl
    · have hval := char_toNat_valid c
      rw [show escapeChar c =
            '\\' :: 'u' :: hex4 (55296 + (c.toNat - 65536) / 1024) ++
            '\\' :: 'u' :: hex4 (56320 + (c.toNat - 65536) % 1024) from by
        simp [escapeChar, h1, h2, h3, h4, h5, h6, h7, h8, h9]]
      have hlow : c.toNat - 65536 < 1048576 := by omega
      simp only [hex4, List.cons_append, List.nil_append, List.append_assoc]
      rw [parseJStrF_esc fuel _ _ _
        (readEsc_u_pair _ _ _ _ _ _ _ _ _
          (55296 + (c.toNat - 65536) / 1024) (56320 + (c.toNat - 65536) % 1024)
          (hexVal4_hex4 _ (by omega)) (by omega) (by omega)
          (hexVal4_hex4 _ (by omega)) (by omega))]
      rw [ih]
      rw [show 65536 + (55296 + (c.toNat - 65536) / 1024 - 55296) * 1024 +
            (56320 + (c.toNat - 65536) % 1024 - 56320) = c.toNat from by omega]
      rw [Char.ofNat_toNat]
      rfl

theorem parseJStr_escapeString (s r : List Char) :
    parseJStr (escapeString s ++ '"' :: r) = some (s, r) := by
  unfold parseJStr
  have hle := length_le_escapeString s
  have hlen : s.length < (escapeString s ++ '"' :: r).length + 1 := by
    simp only [List.length_append, List.length_cons]
    omega
  exact parseJStrF_escapeString _ s r hlen

theorem parseQuoted_jquote (s r : List Char) :
    parseQuoted (jquote s ++ r) = some (s, r) := by
  rw [show jquote s ++ r = '"' :: (escapeString s ++ '"' :: r) from by
    simp [jquote]]
  rw [parseQuoted, parseJStr_escapeString]


/-! ## Decimal number round-trip -/

theorem decDigitChar_isDigit : ∀ d < 10, isDigitChar (decDigitChar d) = true := by decide

theorem decDigitChar_val : ∀ d < 10, (decDigitChar d).toNat - 48 = d := by decide

theorem natDigits_all_digits (n : Nat) : ∀ ch ∈ natDigits n, isDigitChar ch = true := by
  intro ch hch
  unfold natDigits at hch
  by_cases h : n = 0
  · rw [if_pos h] at hch
    simp at hch
    subst hch
    decide
  · rw [if_neg h] at hch
    simp only [List.mem_map, List.mem_reverse] at hch
    obtain ⟨d, hd, rfl⟩ := hch
    exact decDigitChar_isDigit d (Nat.digits_lt_base (by norm_num) hd)

theorem natDigits_ne_nil (n : Nat) : natDigits n ≠ [] := by
  unfold natDigits
  by_cases h : n = 0
  · simp [h]
  · rw [if_neg h]
    simp only [ne_eq, List.map_eq_nil_iff, List.reverse_eq_nil_iff]
    exact Nat.digits_ne_nil_iff_ne_zero.mpr h

theorem takeWhile_append_all (p : Char → Bool) :
    ∀ (l1 r : List Char), (∀ a ∈ l1, p a = true) →
      (l1 ++ r).takeWhile p = l1 ++ r.takeWhile p ∧
      (l1 ++ r).dropWhile p = r.dropWhile p
  | [], r, _ => ⟨rfl, rfl⟩
  | a :: t, r, h => by
    have ih := takeWhile_append_all p t r (fun b hb => h b (by simp [hb]))
    simp only [List.cons_append, List.takeWhile_cons, List.dropWhile_cons,
      h a (by simp), ih.1, ih.2]
    simp

theorem takeWhile_nil_of_head (p : Char → Bool) (c : Char) (t : List Char)
    (h : p c = false) : (c :: t).takeWhile p = [] := by
  simp [List.takeWhile_cons, h]

theorem dropWhile_eq_self_of_takeWhile_nil (p : Char → Bool) (r : List Char)
    (hr : r.takeWhile p = []) : r.dropWhile p = r := by
  cases r with
  | nil => rfl
  | cons a t =>
    rw [List.takeWhile_cons] at hr
    by_cases h : p a = true
    · rw [if_pos h] at hr
      exact absurd hr (by simp)
    · rw [List.dropWhile_cons, if_neg h]

theorem foldl_decDigits :
    ∀ (l : List Nat), (∀ d ∈ l, d < 10) → ∀ (a : Nat),
      ((l.reverse.map decDigitChar).foldl (fun x c => x * 10 + (c.toNat - 48)) a)
        = a * 10 ^ l.length + Nat.ofDigits 10 l
  | [], _, a => by simp
  | d :: ds, h, a => by
    have ih := foldl_decDigits ds (fun x hx => h x (by simp [hx])) a
    simp only [List.reverse_cons, List.map_append, List.foldl_append,
      List.map_cons, List.map_nil, List.foldl_cons, List.foldl_nil]
    rw [ih]
    rw [decDigitChar_val d (h d (by simp))]
    rw [Nat.ofDigits_cons, List.length_cons, pow_succ]
    ring

theorem parseNat_natDigits (n : Nat) (r : List Char)
    (hr : r.takeWhile isDigitChar = []) :
    parseNat (natDigits n ++ r) = some (n, r) := by
  have hall := natDigits_all_digits n
  have htw := takeWhile_append_all isDigitChar (natDigits n) r hall
  unfold parseNat
  rw [htw.1, htw.2, hr, dropWhile_eq_self_of_takeWhile_nil isDigitChar r hr,
    List.append_nil]
  rw [if_neg (natDigits_ne_nil n)]
  simp only [Option.some.injEq, Prod.mk.injEq, and_true]
  unfold natDigits
  by_cases h : n = 0
  · rw [if_pos h]
    subst h
    decide
  · rw [if_neg h]
    rw [foldl_decDigits (Nat.digits 10 n)
      (fun d hd => Nat.digits_lt_base (by norm_num) hd) 0]
    simp [Nat.ofDigits_digits]

/-! ## Canonical JSON round-trips -/

theorem parseTT_serializeTT (tt : Option (List Char)) (r : List Char) :
    parseTT (serializeTT tt ++ r) = some (tt, r) := by
  cases tt with
  | none => rfl
  | some t =>
    rw [show serializeTT (some t) ++ r = '"' :: (escapeString t ++ '"' :: r) from by
      simp [serializeTT, jquote]]
    rw [parseTT, parseJStr_escapeString]
    rfl

theorem parseBundle_serializeBundle (b : GlyphWebBundle) :
    parseBundle (serializeBundle b) = some b := by
  have hpn : parseNat (natDigits b.createdAt ++ ['\x7d']) =
      some (b.createdAt, ['\x7d']) :=
    parseNat_natDigits b.createdAt ['\x7d'] (by decide)
  unfold parseBundle serializeBundle
  simp only [List.append_assoc]
  rw [dropLit_append]
  simp only [Option.bind_eq_bind, Option.some_bind]
  rw [parseQuoted_jquote]
  simp only [Option.some_bind]
  rw [dropLit_append]
  simp only [Option.some_bind]
  rw [parseQuoted_jquote]
  simp only [Option.some_bind]
  rw [dropLit_append]
  simp only [Option.some_bind]
  rw [parseTT_serializeTT]
  simp only [Option.some_bind]
  rw [dropLit_append]
  simp only [Option.some_bind]
  rw [hpn]
  simp only [Option.some_bind]
  rw [show dropLit ['\x7d'] ['\x7d'] = some [] from rfl]
  simp

theorem parseChunk_serializeChunk (ch : GlyphChunk) :
    parseChunk (serializeChunk ch) = some ch := by
  have hidx : parseNat (natDigits ch.index ++
      (",\"total\":".toList ++ (natDigits ch.total ++
        (",\"data\":".toList ++ (jquote ch.data ++ ['\x7d']))))) =
      some (ch.index, ",\"total\":".toList ++ (natDigits ch.total ++
        (",\"data\":".toList ++ (jquote ch.data ++ ['\x7d'])))) := by
    refine parseNat_natDigits _ _ ?_
    exact takeWhile_nil_of_head isDigitChar ',' _ (by decide)
  have htot : parseNat (natDigits ch.total ++
      (",\"data\":".toList ++ (jquote ch.data ++ ['\x7d']))) =
      some (ch.total, ",\"data\":".toList ++ (jquote ch.data ++ ['\x7d'])) := by
    refine parseNat_natDigits _ _ ?_
    exact takeWhile_nil_of_head isDigitChar ',' _ (by decide)
  unfold parseChunk serializeChunk
  simp only [List.append_assoc]
  rw [dropLit_append]
  simp only [Option.bind_eq_bind, Option.some_bind]
  rw [parseQuoted_jquote]
  simp only [Option.some_bind]
  rw [dropLit_append]
  simp only [Option.some_bind]
  rw [hidx]
  simp only [Option.some_bind]
  rw [dropLit_append]
  simp only [Option.some_bind]
  rw [htot]
  simp only [Option.some_bind]
  rw [dropLit_append]
  simp only [Option.some_bind]
  rw [parseQuoted_jquote]
  simp only [Option.some_bind]
  rw [show dropLit ['\x7d'] ['\x7d'] = some [] from rfl]
  simp


/-! ## ASCII and UTF-8 facts -/

theorem hexDigitChar_ascii (d : Nat) : (hexDigitChar d).toNat < 128 := by
  by_cases h : d < 16
  · exact (by decide : ∀ d < 16, (hexDigitChar d).toNat < 128) d h
  · unfold hexDigitChar
    rw [List.getD_eq_default _ _ (by simp at h ⊢; omega)]
    decide

theorem decDigitChar_ascii (d : Nat) : (decDigitChar d).toNat < 128 := by
  by_cases h : d < 10
  · exact (by decide : ∀ d < 10, (decDigitChar d).toNat < 128) d h
  · unfold decDigitChar
    rw [List.getD_eq_default _ _ (by simp at h ⊢; omega)]
    decide

theorem hex4_ascii (m : Nat) : ∀ x ∈ hex4 m, x.toNat < 128 := by
  intro x hx
  simp only [hex4, List.mem_cons, List.not_mem_nil, or_false] at hx
  rcases hx with rfl | rfl | rfl | rfl <;> exact hexDigitChar_ascii _

theorem escapeChar_ascii (c : Char) : ∀ x ∈ escapeChar c, x.toNat < 128 := by
  intro x hx
  unfold escapeChar at hx
  split_ifs at hx with h1 h2 h3 h4 h5 h6 h7 h8 h9
  · simp at hx; rcases hx with rfl | rfl <;> decide
  · simp at hx; subst hx; decide
  · simp at hx; rcases hx with rfl | rfl <;> decide
  · simp at hx; rcases hx with rfl | rfl <;> decide
  · simp at hx; rcases hx with rfl | rfl <;> decide
  · simp at hx; rcases hx with rfl | rfl <;> decide
  · simp at hx; rcases hx with rfl | rfl <;> decide
  · simp at hx; subst hx; omega
  · simp only [List.mem_cons] at hx
    rcases hx with rfl | rfl | hx
    · decide
    · decide
    · exact hex4_ascii _ x hx
  · simp only [List.cons_append, List.mem_cons, List.mem_append] at hx
    rcases hx with rfl | rfl | hx | rfl | rfl | hx
    · decide
    · decide
    · exact hex4_ascii _ x hx
    · decide
    · decide
    · exact hex4_ascii _ x hx

theorem escapeString_ascii (s : List Char) : ∀ x ∈ escapeString s, x.toNat < 128 := by
  intro x hx
  unfold escapeString at hx
  simp only [List.mem_flatten, List.mem_map] at hx
  obtain ⟨l, ⟨c, _, rfl⟩, hxl⟩ := hx
  exact escapeChar_ascii c x hxl

theorem jquote_ascii (s : List Char) : ∀ x ∈ jquote s, x.toNat < 128 := by
  intro x hx
  unfold jquote at hx
  simp only [List.mem_cons, List.mem_append, List.mem_singleton,
    List.not_mem_nil, or_false] at hx
  rcases hx with rfl | hx | rfl
  · decide
  · exact escapeString_ascii s x hx
  · decide

theorem natDigits_ascii (n : Nat) : ∀ x ∈ natDigits n, x.toNat < 128 := by
  intro x hx
  unfold natDigits at hx
  by_cases h : n = 0
  · rw [if_pos h] at hx; simp at hx; subst hx; decide
  · rw [if_neg h] at hx
    simp only [List.mem_map] at hx
    obtain ⟨d, _, rfl⟩ := hx
    exact decDigitChar_ascii d

theorem serializeTT_ascii (tt : Option (List Char)) : ∀ x ∈ serializeTT tt, x.toNat < 128 := by
  intro x hx
  cases tt with
  | none => simp [serializeTT] at hx; rcases hx with rfl | rfl | rfl | rfl <;> decide
  | some t => exact jquote_ascii t x hx

theorem serializeBundle_ascii (b : GlyphWebBundle) :
    ∀ x ∈ serializeBundle b, x.toNat < 128 := by
  intro x hx
  unfold serializeBundle at hx
  simp only [List.mem_append, List.mem_singleton] at hx
  rcases hx with ((((((((hx | hx) | hx) | hx) | hx) | hx) | hx) | hx) | rfl)
  · exact (by decide : ∀ x ∈ "\x7b\"title\":".toList, x.toNat < 128) x hx
  · exact jquote_ascii _ x hx
  · exact (by decide : ∀ x ∈ ",\"html\":".toList, x.toNat < 128) x hx
  · exact jquote_ascii _ x hx
  · exact (by decide : ∀ x ∈ ",\"templateType\":".toList, x.toNat < 128) x hx
  · exact serializeTT_ascii _ x hx
  · exact (by decide : ∀ x ∈ ",\"createdAt\":".toList, x.toNat < 128) x hx
  · exact natDigits_ascii _ x hx
  · decide

theorem utf8Char_of_ascii (c : Char) (h : c.toNat < 128) : utf8Char c = [c.toNat] := by
  simp [utf8Char, h]

theorem utf8_of_ascii (s : List Char) (h : ∀ c ∈ s, c.toNat < 128) :
    utf8 s = s.map Char.toNat := by
  induction s with
  | nil => rfl
  | cons c t ih =>
    unfold utf8
    simp only [List.map_cons, List.flatten_cons]
    rw [utf8Char_of_ascii c (h c (by simp))]
    rw [show (t.map utf8Char).flatten = utf8 t from rfl]
    rw [ih (fun x hx => h x (by simp [hx]))]
    rfl

theorem asciiDecode_utf8 (s : List Char) (h : ∀ c ∈ s, c.toNat < 128) :
    asciiDecode (utf8 s) = some s := by
  rw [utf8_of_ascii s h]
  unfold asciiDecode
  rw [if_pos (by
    rw [List.all_eq_true]
    intro b hb
    simp only [List.mem_map] at hb
    obtain ⟨c, hc, rfl⟩ := hb
    simpa using h c hc)]
  rw [List.map_map]
  congr 1
  rw [show Char.ofNat ∘ Char.toNat = fun c => Char.ofNat c.toNat from rfl]
  rw [List.map_congr_left (fun c _ => Char.ofNat_toNat c)]
  exact List.map_id _

theorem utf8Char_bytes (c : Char) : ∀ x ∈ utf8Char c, x < 256 := by
  have hv := char_toNat_valid c
  intro x hx
  unfold utf8Char at hx
  simp only at hx
  split_ifs at hx with h1 h2 h3
  · simp at hx; omega
  · simp at hx; rcases hx with rfl | rfl <;> omega
  · simp at hx; rcases hx with rfl | rfl | rfl <;> omega
  · simp at hx; rcases hx with rfl | rfl | rfl | rfl <;> omega

theorem utf8_bytes (s : List Char) : ∀ x ∈ utf8 s, x < 256 := by
  intro x hx
  unfold utf8 at hx
  simp only [List.mem_flatten, List.mem_map] at hx
  obtain ⟨l, ⟨c, _, rfl⟩, hxl⟩ := hx
  exact utf8Char_bytes c x hxl

/-! ## Bundle decode inverts bundle encode -/

theorem decodeWebBundle_encode_web_bundle (z : ZlibLib)
    (hz1 : z.Lossless) (hz2 : z.BytePreserving)
    (title html : List Char) (tt : Option (List Char)) (now : Nat) :
    decodeWebBundle z (encode_web_bundle z title html tt now).1 =
      some ⟨title, html, tt, now⟩ := by
  unfold encode_web_bundle decodeWebBundle gzip_compress gzip_decompress
  simp only
  rw [dropLit_append]
  simp only [Option.bind_eq_bind, Option.some_bind]
  rw [b64Decode_b64Encode _ (hz2 9 _ (utf8_bytes _))]
  simp only [Option.some_bind]
  rw [hz1 9 _]
  simp only [Option.some_bind]
  rw [asciiDecode_utf8 _ (serializeBundle_ascii _)]
  simp only [Option.some_bind]
  exact parseBundle_serializeBundle _


/-! ## Chunking facts -/

theorem chunksBy_nil (k : Nat) : chunksBy k ([] : List α) = [] := rfl

theorem chunksByF_congr :
    ∀ (f1 f2 k : Nat) (s : List α), s.length ≤ f1 → s.length ≤ f2 →
      chunksByF f1 k s = chunksByF f2 k s
  | f1, f2, k, [], _, _ => by
    cases f1 <;> cases f2 <;> rfl
  | g1 + 1, g2 + 1, k, a :: t, h1, h2 => by
    simp only [chunksByF]
    rw [chunksByF_congr g1 g2 k (t.drop (k - 1)) (by
        simp only [List.length_cons] at h1
        simp only [List.length_drop]
        omega) (by
        simp only [List.length_cons] at h2
        simp only [List.length_drop]
        omega)]
  | 0, _, k, a :: t, h1, _ => by simp at h1
  | _ + 1, 0, k, a :: t, _, h2 => by simp at h2

theorem chunksBy_eq_chunksByF (k : Nat) (s : List α) (fuel : Nat)
    (h : s.length ≤ fuel) : chunksBy k s = chunksByF fuel k s :=
  chunksByF_congr s.length fuel k s le_rfl h

theorem chunksBy_cons_eq (k : Nat) (a : α) (s : List α) :
    chunksBy k (a :: s) = (a :: s.take (k - 1)) :: chunksBy k (s.drop (k - 1)) := by
  unfold chunksBy
  rw [show (a :: s).length = s.length + 1 from rfl]
  simp only [chunksByF]
  rw [chunksByF_congr s.length (s.drop (k - 1)).length k (s.drop (k - 1))
    (by simp only [List.length_drop]; omega) le_rfl]

theorem chunksBy_flatten (k : Nat) (s : List α) : (chunksBy k s).flatten = s := by
  generalize hn : s.length = n
  induction n using Nat.strong_induction_on generalizing s with
  | _ n ih =>
    cases s with
    | nil => simp [chunksBy_nil]
    | cons a t =>
      rw [chunksBy_cons_eq]
      simp only [List.flatten_cons]
      rw [ih (t.drop (k - 1)).length (by
        simp only [List.length_cons] at hn
        simp only [List.length_drop]
        omega) _ rfl]
      rw [List.cons_append, List.take_append_drop]

theorem chunksBy800_length :
    ∀ (n : Nat) (s : List Char), s.length ≤ n →
      (chunksBy 800 s).length = (s.length + 799) / 800
  | _, [], _ => by simp [chunksBy_nil]
  | Nat.succ n, a :: t, h => by
    rw [chunksBy_cons_eq]
    have ih := chunksBy800_length n (t.drop (800 - 1)) (by
      simp only [List.length_cons] at h
      simp only [List.length_drop]
      omega)
    simp only [List.length_cons, ih, List.length_drop]
    omega

theorem chunksBy800_getElem :
    ∀ (n : Nat) (s : List Char) (i : Nat), s.length ≤ n →
      ∀ (h : i < (chunksBy 800 s).length),
        (chunksBy 800 s)[i] = (s.drop (800 * i)).take 800
  | _, [], i, _, h => by
    rw [chunksBy_nil] at h
    exact absurd h (by simp)
  | Nat.succ n, a :: t, 0, hb, h => by
    simp only [chunksBy_cons_eq, List.getElem_cons_zero, List.drop_zero, Nat.mul_zero]
    rw [show (800 : Nat) = 799 + 1 from rfl, List.take_succ_cons]
  | Nat.succ n, a :: t, i + 1, hb, h => by
    simp only [chunksBy_cons_eq] at h ⊢
    simp only [List.getElem_cons_succ]
    rw [chunksBy800_getElem n (t.drop (800 - 1)) i (by
      simp only [List.length_cons] at hb
      simp only [List.length_drop]
      omega) (by simpa using h)]
    rw [List.drop_drop]
    rw [show 800 * (i + 1) = 800 * i + (800 - 1) + 1 from by omega]
    rw [List.drop_succ_cons]
    rw [show 800 - 1 + 800 * i = 800 * i + (800 - 1) from by omega]

theorem chunksBy800_map_length :
    ∀ (n : Nat) (s t : List Char), s.length ≤ n → s.length = t.length →
      (chunksBy 800 s).map List.length = (chunksBy 800 t).map List.length
  | _, [], t, _, he => by
    have : t = [] := by
      cases t with
      | nil => rfl
      | cons b t2 => simp at he
    subst this
    rfl
  | Nat.succ n, a :: s2, b :: t2, hb, he => by
    have he2 : s2.length = t2.length := by simpa using he
    rw [chunksBy_cons_eq, chunksBy_cons_eq]
    simp only [List.map_cons]
    rw [chunksBy800_map_length n (s2.drop (800 - 1)) (t2.drop (800 - 1)) (by
      simp only [List.length_cons] at hb
      simp only [List.length_drop]
      omega) (by simp only [List.length_drop, he2])]
    simp [List.length_take, he2]
  | Nat.succ n, a :: s2, [], hb, he => by simp at he

theorem chunksBy800_mem_length (s : List Char) :
    ∀ sl ∈ chunksBy 800 s, sl.length ≤ 800 := by
  intro sl hsl
  obtain ⟨i, hi, rfl⟩ := List.mem_iff_getElem.mp hsl
  rw [chunksBy800_getElem s.length s i le_rfl hi]
  simp only [List.length_take]
  omega


/-! ## Chunk record facts -/

theorem chunkRecords_length (p sid : List Char) :
    (chunkRecords p sid).length =
      (chunksBy MAX_CHUNK_BYTES (b64Encode (utf8 p))).length := by
  unfold chunkRecords
  simp [List.enum_length]

theorem chunkRecords_map_index (p sid : List Char) :
    (chunkRecords p sid).map GlyphChunk.index =
      List.range (chunkRecords p sid).length := by
  rw [chunkRecords_length]
  unfold chunkRecords
  rw [List.map_map]
  rw [show (GlyphChunk.index ∘ fun pr : Nat × List Char =>
      (⟨sid, pr.1, (chunksBy MAX_CHUNK_BYTES (b64Encode (utf8 p))).length, pr.2⟩ :
        GlyphChunk)) = Prod.fst from rfl]
  rw [List.enum_map_fst]

theorem chunkRecords_map_data (p sid : List Char) :
    (chunkRecords p sid).map GlyphChunk.data =
      chunksBy MAX_CHUNK_BYTES (b64Encode (utf8 p)) := by
  unfold chunkRecords
  rw [List.map_map]
  rw [show (GlyphChunk.data ∘ fun pr : Nat × List Char =>
      (⟨sid, pr.1, (chunksBy MAX_CHUNK_BYTES (b64Encode (utf8 p))).length, pr.2⟩ :
        GlyphChunk)) = Prod.snd from rfl]
  rw [List.enum_map_snd]

theorem chunkRecords_getElem (p sid : List Char) (i : Nat)
    (h : i < (chunkRecords p sid).length) :
    (chunkRecords p sid)[i] =
      ⟨sid, i, (chunksBy MAX_CHUNK_BYTES (b64Encode (utf8 p))).length,
       ((b64Encode (utf8 p)).drop (MAX_CHUNK_BYTES * i)).take MAX_CHUNK_BYTES⟩ := by
  have h2 : i < (chunksBy 800 (b64Encode (utf8 p))).length := by
    rw [chunkRecords_length] at h
    exact h
  unfold chunkRecords
  simp only [List.getElem_map, List.getElem_enum, GlyphChunk.mk.injEq, true_and]
  exact chunksBy800_getElem (b64Encode (utf8 p)).length _ i le_rfl h2

/-! ## Length-only facts for concrete inputs -/

theorem b64Encode_length : ∀ bs : Bytes, (b64Encode bs).length = 4 * ((bs.length + 2) / 3)
  | [] => rfl
  | [_] => by simp [b64Encode]
  | [_, _] => by simp [b64Encode]
  | a :: b :: c :: rest => by
    simp only [b64Encode, List.length_cons, b64Encode_length rest]
    omega

theorem utf8_replicate_length (n : Nat) (c : Char) (h : c.toNat < 128) :
    (utf8 (List.replicate n c)).length = n := by
  rw [utf8_of_ascii _ (fun x hx => by rw [List.eq_of_mem_replicate hx]; exact h)]
  simp

theorem chunksBy800_map_length_of_3000 (t : List Char) (h : t.length = 3000) :
    (chunksBy 800 t).map List.length = [800, 800, 800, 600] := by
  apply List.ext_getElem
  · rw [List.length_map, chunksBy800_length t.length t le_rfl, h]
    decide
  · intro i h1 h2
    rw [List.getElem_map,
      chunksBy800_getElem t.length t i le_rfl (by simpa using h1)]
    simp only [List.length_take, List.length_drop, h]
    have hi : i < 4 := by simpa using h2
    interval_cases i <;> simp


/-! ## Claim theorems -/

/-- C1: for every record with a title, a body of length 0 to 100,000, and a
kind that is either absent or in the allowed set, decoding the result of
bundle-encoding that record (strip the `GLYW:` tag, base64-decode,
raw-deflate-decompress, parse the compact JSON) yields the original record
field-for-field. -/
theorem c1_bundle_roundtrip (z : ZlibLib) (hz1 : z.Lossless) (hz2 : z.BytePreserving)
    (title html : List Char) (tt : Option (List Char)) (now : Nat)
    (_hbody : html.length ≤ 100000)
    (_hkind : tt = none ∨ tt ∈ [some "trivia".toList, some "article".toList,
      some "art".toList, some "adventure".toList]) :
    decodeWebBundle z (encode_web_bundle z title html tt now).1 =
      some ⟨title, html, tt, now⟩ :=
  decodeWebBundle_encode_web_bundle z hz1 hz2 title html tt now

theorem c1_bundle_roundtrip_witness :
    (⟨fun _ bs => bs, fun bs => some bs⟩ : ZlibLib).Lossless ∧
    (⟨fun _ bs => bs, fun bs => some bs⟩ : ZlibLib).BytePreserving ∧
    ("<p>hi</p>".toList.length ≤ 100000) ∧
    decodeWebBundle ⟨fun _ bs => bs, fun bs => some bs⟩
      (encode_web_bundle ⟨fun _ bs => bs, fun bs => some bs⟩
        "T".toList "<p>hi</p>".toList (some "article".toList) 0).1 =
      some ⟨"T".toList, "<p>hi</p>".toList, some "article".toList, 0⟩ := by
  refine ⟨fun _ _ => rfl, fun _ _ h => h, by decide, ?_⟩
  exact c1_bundle_roundtrip ⟨fun _ bs => bs, fun bs => some bs⟩
    (fun _ _ => rfl) (fun _ _ h => h)
    "T".toList "<p>hi</p>".toList (some "article".toList) 0
    (by decide) (Or.inr (by decide))

/-- C2: the number of chunk frames equals the ceiling of the base64 length
divided by 800; a payload whose base64 form is 3,000 characters long yields
exactly 4 chunks with data lengths 800, 800, 800, 600. -/
theorem c2_chunk_count (p sid : List Char)
    (h3000 : (b64Encode (utf8 p)).length = 3000) :
    (∀ (q sq : List Char), (chunk_payload q sq).length =
        ((b64Encode (utf8 q)).length + MAX_CHUNK_BYTES - 1) / MAX_CHUNK_BYTES)
    ∧ (chunk_payload p sid).length = 4
    ∧ (chunkRecords p sid).map (fun ch => ch.data.length) = [800, 800, 800, 600] := by
  have hcount : ∀ (q sq : List Char), (chunk_payload q sq).length =
      ((b64Encode (utf8 q)).length + MAX_CHUNK_BYTES - 1) / MAX_CHUNK_BYTES := by
    intro q sq
    unfold chunk_payload
    rw [List.length_map, chunkRecords_length,
      show MAX_CHUNK_BYTES = 800 from rfl,
      chunksBy800_length (b64Encode (utf8 q)).length _ le_rfl]
    omega
  refine ⟨hcount, ?_, ?_⟩
  · rw [hcount p sid, h3000]
    decide
  · rw [show (chunkRecords p sid).map (fun ch => ch.data.length) =
        ((chunkRecords p sid).map GlyphChunk.data).map List.length from by
      rw [List.map_map]; rfl]
    rw [chunkRecords_map_data, show MAX_CHUNK_BYTES = 800 from rfl]
    exact chunksBy800_map_length_of_3000 _ h3000

theorem c2_chunk_count_witness :
    (b64Encode (utf8 (List.replicate 2250 'a'))).length = 3000 ∧
    ((∀ (q sq : List Char), (chunk_payload q sq).length =
        ((b64Encode (utf8 q)).length + MAX_CHUNK_BYTES - 1) / MAX_CHUNK_BYTES)
     ∧ (chunk_payload (List.replicate 2250 'a') []).length = 4
     ∧ (chunkRecords (List.replicate 2250 'a') []).map (fun ch => ch.data.length) =
        [800, 800, 800, 600]) := by
  have h3000 : (b64Encode (utf8 (List.replicate 2250 'a'))).length = 3000 := by
    rw [b64Encode_length, utf8_replicate_length 2250 'a' (by decide)]
  exact ⟨h3000, c2_chunk_count (List.replicate 2250 'a') [] h3000⟩

/-- C3: the splitter base64-encodes the payload's UTF-8 bytes uniformly,
and the data fields of the emitted chunks, concatenated in index order,
equal that base64 string exactly — no overlap, no gap. -/
theorem c3_data_reassembles (p sid : List Char) :
    ((chunkRecords p sid).map GlyphChunk.data).flatten = b64Encode (utf8 p)
    ∧ chunk_payload p sid = (chunkRecords p sid).map chunkFrame := by
  constructor
  · rw [chunkRecords_map_data]
    exact chunksBy_flatten MAX_CHUNK_BYTES _
  · rfl

/-- C4: the encoded outer payload is exactly `GLYW:` followed by standard
padded base64 of the raw header-less deflate (window -15), at maximum
compression level 9, of the compact JSON serialization of the record with
keys title, html, templateType (nullable) and createdAt (a number); the
serialization is the canonical one that parses back to the record. -/
theorem c4_outer_payload_format (z : ZlibLib) (title html : List Char)
    (tt : Option (List Char)) (now : Nat) :
    (encode_web_bundle z title html tt now).1 =
      "GLYW:".toList ++
        b64Encode (gzip_compress z (utf8 (serializeBundle ⟨title, html, tt, now⟩)))
    ∧ gzip_compress z (utf8 (serializeBundle ⟨title, html, tt, now⟩)) =
        z.deflateRaw zlib_level (utf8 (serializeBundle ⟨title, html, tt, now⟩))
    ∧ zlib_level = 9 ∧ zlib_window_bits = -15
    ∧ parseBundle (serializeBundle ⟨title, html, tt, now⟩) =
        some ⟨title, html, tt, now⟩ :=
  ⟨rfl, rfl, rfl, rfl, parseBundle_serializeBundle _⟩

/-- C5: every chunk frame string emitted by the splitter is exactly `GLYC:`
followed by standard base64 of the compact JSON serialization of the chunk
record with integer keys index and total and string keys sessionId and
data; that serialization parses back to the chunk record. -/
theorem c5_chunk_frame_format (p sid : List Char) (i : Nat)
    (h : i < (chunk_payload p sid).length) :
    (chunk_payload p sid).get ⟨i, h⟩ =
      "GLYC:".toList ++ b64Encode (utf8 (serializeChunk
        ⟨sid, i, (chunksBy MAX_CHUNK_BYTES (b64Encode (utf8 p))).length,
         ((b64Encode (utf8 p)).drop (MAX_CHUNK_BYTES * i)).take MAX_CHUNK_BYTES⟩))
    ∧ ∀ ch : GlyphChunk, parseChunk (serializeChunk ch) = some ch := by
  constructor
  · rw [List.get_eq_getElem]
    unfold chunk_payload
    rw [List.getElem_map]
    rw [chunkRecords_getElem p sid i (by
      unfold chunk_payload at h
      rw [List.length_map] at h
      exact h)]
    rfl
  · exact parseChunk_serializeChunk

theorem c5_chunk_frame_format_witness :
    0 < (chunk_payload ['x'] ['S']).length ∧
    ((chunk_payload ['x'] ['S']).get ⟨0, by decide⟩ =
      "GLYC:".toList ++ b64Encode (utf8 (serializeChunk
        ⟨['S'], 0, (chunksBy MAX_CHUNK_BYTES (b64Encode (utf8 ['x']))).length,
         ((b64Encode (utf8 ['x'])).drop (MAX_CHUNK_BYTES * 0)).take MAX_CHUNK_BYTES⟩))
     ∧ ∀ ch : GlyphChunk, parseChunk (serializeChunk ch) = some ch) :=
  ⟨by decide, c5_chunk_frame_format ['x'] ['S'] 0 (by decide)⟩

/-- C6: for every single call to the splitter, all emitted chunks carry
the same sessionId and the identical total, total equals the number of
chunks emitted, and the index values are exactly 0, 1, ..., total-1 in
increasing order (hence pairwise distinct and below total). -/
theorem c6_chunk_invariants (p sid : List Char) :
    (∀ ch ∈ chunkRecords p sid,
        ch.sessionId = sid ∧ ch.total = (chunkRecords p sid).length ∧
        ch.index < ch.total)
    ∧ ((chunkRecords p sid).map GlyphChunk.index).Pairwise (· < ·)
    ∧ (chunkRecords p sid).map GlyphChunk.index =
        List.range (chunkRecords p sid).length
    ∧ (chunk_payload p sid).length = (chunkRecords p sid).length := by
  refine ⟨?_, ?_, chunkRecords_map_index p sid, ?_⟩
  · intro ch hch
    have hidx : ch.index ∈ (chunkRecords p sid).map GlyphChunk.index :=
      List.mem_map_of_mem _ hch
    rw [chunkRecords_map_index] at hidx
    have hlt : ch.index < (chunkRecords p sid).length := List.mem_range.mp hidx
    unfold chunkRecords at hch
    simp only [List.mem_map] at hch
    obtain ⟨pr, _, rfl⟩ := hch
    refine ⟨rfl, ?_, ?_⟩
    · exact (chunkRecords_length p sid).symm
    · rw [show (⟨sid, pr.1, (chunksBy MAX_CHUNK_BYTES (b64Encode (utf8 p))).length,
          pr.2⟩ : GlyphChunk).total =
          (chunksBy MAX_CHUNK_BYTES (b64Encode (utf8 p))).length from rfl]
      rw [← chunkRecords_length p sid]
      exact hlt
  · rw [chunkRecords_map_index]
    exact List.pairwise_lt_range _
  · unfold chunk_payload
    rw [List.length_map]

/-- C7: the slices are consecutive and non-overlapping (slice i is exactly
characters 800*i..800*i+799 of the base64 string), every slice has at most
800 characters, every slice except possibly the last has exactly 800, and
the slice boundary layout depends only on the base64 string's length. -/
theorem c7_slice_boundaries (p q : List Char)
    (hlen : (b64Encode (utf8 p)).length = (b64Encode (utf8 q)).length) :
    MAX_CHUNK_BYTES = 800
    ∧ (∀ (i : Nat) (h : i < (chunksBy 800 (b64Encode (utf8 p))).length),
        (chunksBy 800 (b64Encode (utf8 p)))[i] =
          ((b64Encode (utf8 p)).drop (800 * i)).take 800)
    ∧ (∀ sl ∈ chunksBy 800 (b64Encode (utf8 p)), sl.length ≤ 800)
    ∧ (∀ (i : Nat) (h : i + 1 < (chunksBy 800 (b64Encode (utf8 p))).length),
        ((chunksBy 800 (b64Encode (utf8 p))).get
          ⟨i, Nat.lt_of_succ_lt h⟩).length = 800)
    ∧ (chunksBy 800 (b64Encode (utf8 p))).map List.length =
        (chunksBy 800 (b64Encode (utf8 q))).map List.length := by
  refine ⟨rfl, ?_, chunksBy800_mem_length _, ?_, ?_⟩
  · intro i h
    exact chunksBy800_getElem (b64Encode (utf8 p)).length _ i le_rfl h
  · intro i h
    rw [List.get_eq_getElem]
    rw [chunksBy800_getElem (b64Encode (utf8 p)).length _ i le_rfl
      (Nat.lt_of_succ_lt h)]
    simp only [List.length_take, List.length_drop]
    rw [chunksBy800_length (b64Encode (utf8 p)).length _ le_rfl] at h
    omega
  · exact chunksBy800_map_length (b64Encode (utf8 p)).length _ _ le_rfl hlen

theorem c7_slice_boundaries_witness :
    (b64Encode (utf8 ['a'])).length = (b64Encode (utf8 ['a'])).length ∧
    (MAX_CHUNK_BYTES = 800
     ∧ (∀ (i : Nat) (h : i < (chunksBy 800 (b64Encode (utf8 ['a']))).length),
         (chunksBy 800 (b64Encode (utf8 ['a'])))[i] =
           ((b64Encode (utf8 ['a'])).drop (800 * i)).take 800)
     ∧ (∀ sl ∈ chunksBy 800 (b64Encode (utf8 ['a'])), sl.length ≤ 800)
     ∧ (∀ (i : Nat) (h : i + 1 < (chunksBy 800 (b64Encode (utf8 ['a']))).length),
         ((chunksBy 800 (b64Encode (utf8 ['a']))).get
           ⟨i, Nat.lt_of_succ_lt h⟩).length = 800)
     ∧ (chunksBy 800 (b64Encode (utf8 ['a']))).map List.length =
         (chunksBy 800 (b64Encode (utf8 ['a']))).map List.length) :=
  ⟨rfl, c7_slice_boundaries ['a'] ['a'] rfl⟩

/-- C8: encoding is deterministic — the same record fields (title, html,
templateType, createdAt) and the same sessionId produce byte-identical
outer payloads and identical ordered frame lists. -/
theorem c8_encode_deterministic (z : ZlibLib)
    (t1 t2 h1 h2 : List Char) (tt1 tt2 : Option (List Char)) (n1 n2 : Nat)
    (s1 s2 : List Char)
    (ht : t1 = t2) (hh : h1 = h2) (htt : tt1 = tt2) (hn : n1 = n2) (hs : s1 = s2) :
    (encode_web_bundle z t1 h1 tt1 n1).1 = (encode_web_bundle z t2 h2 tt2 n2).1 ∧
    chunk_payload (encode_web_bundle z t1 h1 tt1 n1).1 s1 =
      chunk_payload (encode_web_bundle z t2 h2 tt2 n2).1 s2 := by
  subst ht hh htt hn hs
  exact ⟨rfl, rfl⟩

theorem c8_encode_deterministic_witness :
    (encode_web_bundle ⟨fun _ bs => bs, fun bs => some bs⟩
        "T".toList "B".toList none 5).1 =
      (encode_web_bundle ⟨fun _ bs => bs, fun bs => some bs⟩
        "T".toList "B".toList none 5).1 ∧
    chunk_payload (encode_web_bundle ⟨fun _ bs => bs, fun bs => some bs⟩
        "T".toList "B".toList none 5).1 "S1".toList =
      chunk_payload (encode_web_bundle ⟨fun _ bs => bs, fun bs => some bs⟩
        "T".toList "B".toList none 5).1 "S1".toList :=
  c8_encode_deterministic ⟨fun _ bs => bs, fun bs => some bs⟩
    "T".toList "T".toList "B".toList "B".toList none none 5 5
    "S1".toList "S1".toList rfl rfl rfl rfl rfl

/-- C9: the frame renderer selects error-correction level and module size
as a pure function of the frame's UTF-8 byte length in tiers (level L when
the byte length exceeds 500 and M otherwise; box size 6 above 1200 bytes,
8 above 500 bytes, 10 otherwise), longer payloads never get more
robustness or larger modules, and the renderer returns the chosen QR
version together with the exact byte length encoded. -/
theorem c9_renderer_tiers (lib : QRLib) (raw : List Char) (l1 l2 : Nat)
    (hle : l1 ≤ l2) :
    render_case lib raw =
      qr_to_base64_png lib raw (select_error_correction (utf8 raw).length)
        (select_box_size (utf8 raw).length)
    ∧ (render_case lib raw).2.2 = (utf8 raw).length
    ∧ select_error_correction (utf8 raw).length =
        (if 500 < (utf8 raw).length then ECLevel.L else ECLevel.M)
    ∧ select_box_size (utf8 raw).length =
        (if 1200 < (utf8 raw).length then 6
         else if 500 < (utf8 raw).length then 8 else 10)
    ∧ (select_error_correction l2).robustness ≤
        (select_error_correction l1).robustness
    ∧ select_box_size l2 ≤ select_box_size l1 := by
  refine ⟨rfl, rfl, rfl, rfl, ?_, ?_⟩
  · unfold select_error_correction
    split_ifs
    · simp [ECLevel.robustness]
    · simp [ECLevel.robustness]
    · exfalso
      omega
    · simp [ECLevel.robustness]
  · unfold select_box_size
    split_ifs <;> omega

theorem c9_renderer_tiers_witness :
    3 ≤ 700 ∧
    (render_case ⟨fun _ _ _ => ([], 1)⟩ ['x'] =
      qr_to_base64_png ⟨fun _ _ _ => ([], 1)⟩ ['x']
        (select_error_correction (utf8 ['x']).length)
        (select_box_size (utf8 ['x']).length)
    ∧ (render_case ⟨fun _ _ _ => ([], 1)⟩ ['x']).2.2 = (utf8 ['x']).length
    ∧ select_error_correction (utf8 ['x']).length =
        (if 500 < (utf8 ['x']).length then ECLevel.L else ECLevel.M)
    ∧ select_box_size (utf8 ['x']).length =
        (if 1200 < (utf8 ['x']).length then 6
         else if 500 < (utf8 ['x']).length then 8 else 10)
    ∧ (select_error_correction 700).robustness ≤
        (select_error_correction 3).robustness
    ∧ select_box_size 700 ≤ select_box_size 3) :=
  ⟨by decide, c9_renderer_tiers ⟨fun _ _ _ => ([], 1)⟩ ['x'] 3 700 (by decide)⟩

/-- C10: applied to the empty string, the chunk splitter returns the empty
list — no chunk frame (and no chunk record) is emitted at all. -/
theorem c10_empty_payload (sid : List Char) :
    chunk_payload [] sid = [] ∧ chunkRecords [] sid = [] :=
  ⟨rfl, rfl⟩

end Glyph
